import Mathlib

set_option maxHeartbeats 1000000

namespace PdfExtractor

/- Shallow embedding of the pdf-extractor repository (app.py, pdf.py, upload.py).
   Machine-level details (network, SDK objects, filesystem handles) are modelled
   as explicit environments and event traces; all sizes and offsets are Nat. -/

/-- upload.py, CHUNK_SIZE: 8 MiB chunks for chunked uploads. -/
def CHUNK_SIZE : Nat := 8 * 1024 * 1024

/-- upload.py, LARGE_FILE_THRESHOLD: files strictly larger than 150 MiB use chunked upload. -/
def LARGE_FILE_THRESHOLD : Nat := 150 * 1024 * 1024

/-- Write modes of the storage SDK actually used by the code (WriteMode("overwrite")). -/
inductive WMode where
  | overwrite
deriving DecidableEq, Repr

/-- Kinds of data-carrying storage calls made by upload.py:
    files_upload_session_start, files_upload_session_append_v2,
    files_upload_session_finish, and the single-shot files_upload. -/
inductive EvKind where
  | start
  | append
  | finish
  | whole
deriving DecidableEq, Repr

/-- One data-carrying storage call: its kind, the number of bytes read from the
    file for it (f.read), the session cursor offset at the moment of the call
    (0 when no cursor exists yet), and the commit write mode if one is passed. -/
structure Ev where
  kind : EvKind
  bytes : Nat
  offset : Nat
  mode : Option WMode
deriving DecidableEq, Repr

/-- The while-loop of upload.py upload_large_file (lines 29-34), as the trace of
    calls it makes.  `size` is the file size, `tell` the current file position
    (bytes consumed so far), which is also the current cursor offset.  `fuel`
    bounds the number of iterations; callers pass enough fuel that the loop
    always terminates via its own exit conditions. -/
def uploadLargeLoop : Nat → Nat → Nat → List Ev
  | 0, _, _ => []
  | fuel + 1, size, tell =>
    if tell < size then
      if size - tell ≤ CHUNK_SIZE then
        [⟨EvKind.finish, size - tell, tell, some WMode.overwrite⟩]
      else
        ⟨EvKind.append, CHUNK_SIZE, tell, none⟩ :: uploadLargeLoop fuel size (tell + CHUNK_SIZE)
    else []

/-- upload.py upload_large_file: session start with the first f.read(CHUNK_SIZE)
    (which reads min(CHUNK_SIZE, size) bytes), cursor created at offset f.tell(),
    then the append/finish loop. -/
def upload_large_file (size : Nat) : List Ev :=
  ⟨EvKind.start, min CHUNK_SIZE size, 0, none⟩ ::
    uploadLargeLoop (size / CHUNK_SIZE + 2) size (min CHUNK_SIZE size)

/-- upload.py upload_small_file: the whole file is read and uploaded in one
    files_upload call with WriteMode("overwrite"). -/
def upload_small_file (size : Nat) : List Ev :=
  [⟨EvKind.whole, size, 0, some WMode.overwrite⟩]

/-- upload.py upload_folder_to_dropbox lines 125-128: transfer mode selection
    by file size against LARGE_FILE_THRESHOLD. -/
def transferCallsFor (size : Nat) : List Ev :=
  if LARGE_FILE_THRESHOLD < size then upload_large_file size else upload_small_file size

/-- Number of calls of a given kind in a trace. -/
def countKind (k : EvKind) : List Ev → Nat
  | [] => 0
  | e :: r => (if e.kind = k then 1 else 0) + countKind k r

/-- Total bytes carried by a trace. -/
def totalBytes : List Ev → Nat
  | [] => 0
  | e :: r => e.bytes + totalBytes r

/-- Checks that each call's recorded cursor offset equals the number of bytes
    consumed from the file before that call's chunk was read, starting from acc. -/
def offsetsOk : Nat → List Ev → Bool
  | _, [] => true
  | acc, e :: r => (e.offset == acc) && offsetsOk (acc + e.bytes) r

/-- Python's substring test (`pat in s`), on character lists. -/
def listHasSub (pat : List Char) : List Char → Bool
  | [] => pat.isEmpty
  | c :: rest => pat.isPrefixOf (c :: rest) || listHasSub pat rest

/-- Python's `pat in s` on strings. -/
def strContains (s pat : String) : Bool := listHasSub pat.data s.data

/-- Python's str.replace: scan left to right, replacing each non-overlapping
    occurrence of pat by rep.  fuel bounds the scan (callers pass the string
    length, which suffices for non-empty patterns). -/
def replaceAux (pat rep : List Char) : Nat → List Char → List Char
  | _, [] => []
  | 0, s => s
  | fuel + 1, c :: rest =>
    if pat.isPrefixOf (c :: rest) then
      rep ++ replaceAux pat rep fuel ((c :: rest).drop pat.length)
    else c :: replaceAux pat rep fuel rest

/-- Python's s.replace(pat, rep) on strings. -/
def pyReplace (s pat rep : String) : String :=
  String.mk (replaceAux pat.data rep.data s.data.length s.data)

/-- Python's `a or b` for optional strings (None and "" are falsy). -/
def pyOrOpt (a b : Option String) : Option String :=
  match a with
  | some s => if s = "" then b else some s
  | none => b

/-- upload.py upload_folder_to_dropbox lines 136-143: derivation of view_link
    from shared_link.  Returns the final value of the view_link variable
    (none when it stays None). -/
def deriveViewLink : Option String → Option String
  | none => none
  | some l =>
    if l = "" then none
    else if strContains l "dropbox.com" then
      if strContains l "?dl=0" then
        (if strContains (pyReplace l "?dl=0" "?dl=1") "?dl=1" then
          some (pyReplace (pyReplace l "?dl=0" "?dl=1") "?dl=1" "?dl=0")
        else some (pyReplace l "?dl=0" "?dl=1"))
      else
        (if strContains l "?dl=1" then some (pyReplace l "?dl=1" "?dl=0") else some l)
    else none

/-- The pattern "?dl=0" as a character list. -/
def dl0 : List Char := ['?', 'd', 'l', '=', '0']

/-- The pattern "?dl=1" as a character list. -/
def dl1 : List Char := ['?', 'd', 'l', '=', '1']

/-- A regular file under the local output directory: its path relative to the
    directory (forward-slash separators, as produced by as_posix) and size. -/
structure LocalFile where
  rel : String
  size : Nat
deriving DecidableEq, Repr

/-- Environment for upload_folder_to_dropbox: configuration, filesystem facts
    about the folder argument, remote connectivity, per-file transfer outcomes
    (transferOk i tells whether the i-th file's transfer call succeeds), and
    the outcome of create_shared_link (which returns None when all its
    fallbacks fail). -/
structure UploadEnv where
  hasToken : Bool
  folderExists : Bool
  isDir : Bool
  connectOk : Bool
  folderName : String
  files : List LocalFile
  transferOk : Nat → Bool
  sharedLinkResult : Option String

/-- The dictionary returned by upload_folder_to_dropbox. -/
structure Manifest where
  dropbox_folder_path : String
  uploaded_files : List String
  shared_link : Option String
  view_link : Option String
  total_files : Nat
  success : Bool
  message : String
deriving DecidableEq, Repr

/-- Remote destination of one file: root joined with the relative path. -/
def destPath (root rel : String) : String := root ++ "/" ++ rel

/-- The per-file upload loop of upload_folder_to_dropbox (lines 117-130):
    returns the uploaded_files accumulator and, for bookkeeping, the transfer
    calls made for each file (destination path and call trace); raises on the
    first failing transfer. -/
def uploadFilesLoop (env : UploadEnv) (root : String) :
    List LocalFile → Nat → Except String (List String × List (String × List Ev))
  | [], _ => Except.ok ([], [])
  | f :: rest, i =>
    if env.transferOk i then
      match uploadFilesLoop env root rest (i + 1) with
      | Except.ok (paths, calls) =>
          Except.ok (destPath root f.rel :: paths,
                     (destPath root f.rel, transferCallsFor f.size) :: calls)
      | Except.error e => Except.error e
    else Except.error "Dropbox upload failed"

/-- upload.py upload_folder_to_dropbox: validation, connection, destination
    root computation, per-file transfers, link creation and manifest. -/
def upload_folder_to_dropbox (env : UploadEnv) :
    Except String (Manifest × List (String × List Ev)) :=
  if !env.hasToken then Except.error "Missing DROPBOX_TOKEN in environment variables"
  else if !env.folderExists then Except.error "Folder not found"
  else if !env.isDir then Except.error "Path is not a directory"
  else if !env.connectOk then Except.error "Invalid Dropbox token"
  else
    match uploadFilesLoop env ("/pdf_extractions/" ++ env.folderName) env.files 0 with
    | Except.error e => Except.error e
    | Except.ok (uploaded, calls) =>
      Except.ok ({ dropbox_folder_path := "/pdf_extractions/" ++ env.folderName,
                   uploaded_files := uploaded,
                   shared_link := env.sharedLinkResult,
                   view_link := pyOrOpt (deriveViewLink env.sharedLinkResult)
                     env.sharedLinkResult,
                   total_files := uploaded.length,
                   success := true,
                   message := "Successfully uploaded " ++ toString uploaded.length
                     ++ " files to Dropbox" }, calls)

/-- A JSON tree as parsed by json.loads: strings, other scalars (numbers,
    booleans, null, collapsed to atom), objects (fields in document order,
    keys distinct as in a Python dict) and arrays. -/
inductive JNode where
  | str (s : String)
  | atom
  | obj (fields : List (String × JNode))
  | arr (elems : List JNode)

/-- Python dict.get on an object's fields. -/
def jsonLookup (k : String) : List (String × JNode) → Option JNode
  | [] => none
  | (k', v) :: rest => if k' = k then some v else jsonLookup k rest

/-- The recognized keys, in the order the code checks them (pdf.py line 87). -/
def stripKeys : List String := ["Text", "text", "content", "title", "altText"]

/-- pdf.py lines 87-90: at a dict node, collect v.strip() for each recognized
    key whose value is a non-blank string.  String.trim embeds str.strip. -/
def keyHits (fields : List (String × JNode)) : List String :=
  stripKeys.filterMap fun k =>
    match jsonLookup k fields with
    | some (JNode.str v) => if v.trim = "" then none else some v.trim
    | _ => none

mutual

/-- pdf.py extract_text (lines 85-95): depth-first walk collecting recognized
    string values; at a dict node the five keys are checked first, then all
    values are visited in document order; lists are visited in order. -/
def extract_text : JNode → List String
  | JNode.str _ => []
  | JNode.atom => []
  | JNode.obj fields => keyHits fields ++ extractFields fields
  | JNode.arr elems => extractElems elems

/-- Walk of a dict's values in document order. -/
def extractFields : List (String × JNode) → List String
  | [] => []
  | (_, v) :: rest => extract_text v ++ extractFields rest

/-- Walk of a list's elements in order. -/
def extractElems : List JNode → List String
  | [] => []
  | v :: rest => extract_text v ++ extractElems rest

end

/-- Python dict.fromkeys de-duplication: keep the first occurrence of each
    string, in order.  seen accumulates the strings already kept. -/
def dedupAux : List String → List String → List String
  | _, [] => []
  | seen, x :: xs => if x ∈ seen then dedupAux seen xs else x :: dedupAux (x :: seen) xs

/-- pdf.py line 98: list(dict.fromkeys(text_lines)). -/
def dedupFromKeys (l : List String) : List String := dedupAux [] l

/-- pdf.py line 99: the content written to text.txt — the de-duplicated
    collected strings joined by newlines, one line per entry. -/
def transcriptText (j : JNode) : String :=
  String.intercalate "\n" (dedupFromKeys (extract_text j))

/-- Payload of a file written into the output directory. -/
inductive FileData where
  | text (s : String)
  | jsonDoc (j : JNode)
  | bin (size : Nat)

/-- One entry of the result archive: its name, its content parsed as JSON when
    it is valid JSON (none when json.loads would raise), and its byte size. -/
structure ZipEntry where
  name : String
  parsed : Option JNode
  size : Nat

/-- Python str.lower on ASCII letters. -/
def lowerStr (s : String) : String := String.mk (s.data.map Char.toLower)

/-- Python str.endswith for a single suffix. -/
def strEndsWith (s suf : String) : Bool := suf.data.reverse.isPrefixOf s.data.reverse

/-- Python str.endswith against a tuple of suffixes. -/
def strEndsWithAny (s : String) (sufs : List String) : Bool := sufs.any (strEndsWith s)

/-- pathlib Path(name).name for forward-slash names: the part after the last
    slash. -/
def pathBasename (s : String) : String :=
  String.mk ((s.data.reverse.takeWhile (fun c => c ≠ '/')).reverse)

/-- pdf.py lines 77-108: iterate the archive entries and write output files.
    Returns the files written, or the exception raised (json.loads failing on
    a structuredData.json entry whose bytes are not valid JSON). -/
def processEntries (outDir : String) : List ZipEntry → Except String (List (String × FileData))
  | [] => Except.ok []
  | e :: rest =>
    if e.name = "structuredData.json" then
      match e.parsed with
      | some j =>
        match processEntries outDir rest with
        | Except.ok ws =>
            Except.ok ((outDir ++ "/structuredData.json", FileData.jsonDoc j) ::
                       (outDir ++ "/text.txt", FileData.text (transcriptText j)) :: ws)
        | Except.error err => Except.error err
      | none => Except.error "Expecting value: line 1 column 1 (char 0)"
    else if strContains (lowerStr e.name) "figure"
        && strEndsWithAny e.name [".png", ".jpg", ".jpeg"] then
      match processEntries outDir rest with
      | Except.ok ws =>
          Except.ok ((outDir ++ "/figures/" ++ pathBasename e.name, FileData.bin e.size) :: ws)
      | Except.error err => Except.error err
    else if strContains (lowerStr e.name) "table"
        && strEndsWithAny e.name [".png", ".csv", ".jpg", ".jpeg"] then
      if pathBasename e.name ≠ "" then
        match processEntries outDir rest with
        | Except.ok ws =>
            Except.ok ((outDir ++ "/tables/" ++ pathBasename e.name, FileData.bin e.size) :: ws)
        | Except.error err => Except.error err
      else processEntries outDir rest
    else processEntries outDir rest

/-- Environment for extract_pdf: whether CLIENT_ID/CLIENT_SECRET are set,
    whether the input file exists, and the outcome of the remote extraction
    job (the archive's entries, or the exception raised before the scratch
    zip file is written). -/
structure PdfEnv where
  hasCredentials : Bool
  inputExists : Bool
  remote : Except String (List ZipEntry)

/-- Filesystem effects of one extract_pdf run: whether the output directory
    still exists at the end, whether the scratch zip was ever created, whether
    it was deleted, and the files surviving inside the output directory. -/
structure FsState where
  outputDirExists : Bool
  tempZipCreated : Bool
  tempZipDeleted : Bool
  written : List (String × FileData)

/-- pdf.py extract_pdf: credential and input checks, output directory
    creation, remote job, archive processing, scratch-zip cleanup on the
    success path, and the except-branch (shutil.rmtree of the output
    directory, re-raise) on failure.  Returns the result (output directory
    path or the raised exception) paired with the final filesystem state. -/
def extract_pdf (env : PdfEnv) (uid : String) : Except String String × FsState :=
  if !env.hasCredentials then
    (Except.error "Missing CLIENT_ID / CLIENT_SECRET", ⟨false, false, false, []⟩)
  else if !env.inputExists then
    (Except.error "PDF file not found", ⟨false, false, false, []⟩)
  else
    match env.remote with
    | Except.error e => (Except.error e, ⟨false, false, false, []⟩)
    | Except.ok entries =>
      match processEntries ("generated/" ++ uid) entries with
      | Except.ok ws => (Except.ok ("generated/" ++ uid), ⟨true, true, true, ws⟩)
      | Except.error e => (Except.error e, ⟨false, true, false, []⟩)

/-- The relevant parts of one HTTP upload request: whether the multipart
    field 'file' is present, the client-supplied filename, and the uploaded
    bytes. -/
structure UploadRequest where
  hasFile : Bool
  filename : String
  content : List Nat

/-- The JSON object returned by the /upload route; absent keys are none. -/
structure JsonResponse where
  status : String
  message : String
  output_folder : Option String := none
  dropbox_folder : Option String := none
  shared_link : Option String := none
  view_link : Option String := none
  files_uploaded : Option Nat := none
  clickable_link : Option String := none
  dropbox_error : Option String := none
deriving DecidableEq, Repr

/-- Filesystem effects of the /upload route: intake files saved (path and
    bytes) and files deleted (the route never deletes anything). -/
structure AppState where
  saved : List (String × List Nat)
  deleted : List String
deriving DecidableEq, Repr

/-- The first four bytes of a PDF: b'%PDF'. -/
def pdfMagic : List Nat := [37, 80, 68, 70]

/-- app.py validate_pdf: the first 4 bytes of the saved file equal b'%PDF'. -/
def validate_pdf (content : List Nat) : Bool := content.take 4 == pdfMagic

/-- Python filename.rsplit('.', 1)[1]: the part after the last dot. -/
def extAfterLastDot (s : String) : String :=
  String.mk ((s.data.reverse.takeWhile (fun c => c ≠ '.')).reverse)

/-- app.py allowed_file: '.' in filename and the lower-cased extension is in
    the allow-list, which contains only 'pdf'. -/
def allowed_file (filename : String) : Bool :=
  filename.data.contains '.' && (lowerStr (extAfterLastDot filename) == "pdf")

/-- app.py upload_file (the /upload route).  uid is the generated uuid;
    extractOutcome and dropboxOutcome are the outcomes of the extract_pdf and
    upload_folder_to_dropbox calls (error = the exception they raise).
    Returns the JSON response and the route's filesystem effects. -/
def upload_file (req : UploadRequest) (uid : String)
    (extractOutcome : Except String String)
    (dropboxOutcome : Except String Manifest) : JsonResponse × AppState :=
  if !req.hasFile then
    ({ status := "error", message := "No file selected" }, ⟨[], []⟩)
  else if req.filename = "" then
    ({ status := "error", message := "No file selected" }, ⟨[], []⟩)
  else if decide (req.filename ≠ "") && allowed_file req.filename then
    let st : AppState :=
      ⟨[("uploads/" ++ uid ++ "." ++ lowerStr (extAfterLastDot req.filename),
         req.content)], []⟩
    if validate_pdf req.content then
      match extractOutcome with
      | Except.ok output_folder =>
        match dropboxOutcome with
        | Except.ok r =>
          ({ status := "success",
             message := "PDF processed and uploaded to Dropbox successfully!",
             output_folder := some output_folder,
             dropbox_folder := some r.dropbox_folder_path,
             shared_link := r.shared_link,
             view_link := r.view_link,
             files_uploaded := some r.total_files,
             clickable_link := pyOrOpt r.view_link r.shared_link }, st)
        | Except.error de =>
          ({ status := "success",
             message := "PDF processed successfully, but Dropbox upload failed",
             output_folder := some output_folder,
             dropbox_error := some de }, st)
      | Except.error e =>
        ({ status := "error", message := "PDF processing failed: " ++ e }, st)
    else
      ({ status := "error", message := "Invalid PDF file format" }, st)
  else
    ({ status := "error", message := "Invalid file type. Please upload a PDF file." }, ⟨[], []⟩)

/-- A concrete environment for instantiating the folder-upload theorems. -/
def exampleUploadEnv : UploadEnv :=
  ⟨true, true, true, true, "o", [⟨"a.txt", 3⟩, ⟨"figures/f1.png", 7⟩], fun _ => true, none⟩

/-- The manifest upload_folder_to_dropbox produces on exampleUploadEnv. -/
def exampleManifest : Manifest :=
  { dropbox_folder_path := "/pdf_extractions/o",
    uploaded_files := ["/pdf_extractions/o/a.txt", "/pdf_extractions/o/figures/f1.png"],
    shared_link := none,
    view_link := none,
    total_files := 2,
    success := true,
    message := "Successfully uploaded 2 files to Dropbox" }

/-- The transfer calls upload_folder_to_dropbox makes on exampleUploadEnv. -/
def exampleCalls : List (String × List Ev) :=
  [("/pdf_extractions/o/a.txt", [⟨EvKind.whole, 3, 0, some WMode.overwrite⟩]),
   ("/pdf_extractions/o/figures/f1.png", [⟨EvKind.whole, 7, 0, some WMode.overwrite⟩])]

theorem countKind_nil (k : EvKind) : countKind k [] = 0 := rfl

theorem countKind_cons_self (k : EvKind) (b o : Nat) (m : Option WMode) (r : List Ev) :
    countKind k (⟨k, b, o, m⟩ :: r) = 1 + countKind k r := by
  simp [countKind]

theorem countKind_cons_of_ne (k' k : EvKind) (h : k' ≠ k) (b o : Nat) (m : Option WMode)
    (r : List Ev) : countKind k (⟨k', b, o, m⟩ :: r) = countKind k r := by
  simp [countKind, h]

theorem uploadLargeLoop_spec :
    ∀ (fuel size tell : Nat), tell < size → size ≤ tell + CHUNK_SIZE * fuel →
    countKind EvKind.append (uploadLargeLoop fuel size tell)
        = (size - tell + CHUNK_SIZE - 1) / CHUNK_SIZE - 1 ∧
    countKind EvKind.finish (uploadLargeLoop fuel size tell) = 1 ∧
    totalBytes (uploadLargeLoop fuel size tell) = size - tell ∧
    offsetsOk tell (uploadLargeLoop fuel size tell) = true ∧
    (∀ e ∈ uploadLargeLoop fuel size tell, e.kind = EvKind.append → e.bytes = CHUNK_SIZE) ∧
    (∃ pre lastEv, uploadLargeLoop fuel size tell = pre ++ [lastEv] ∧
      lastEv.kind = EvKind.finish ∧ 0 < lastEv.bytes ∧ lastEv.bytes ≤ CHUNK_SIZE) := by
  intro fuel
  induction fuel with
  | zero =>
    intro size tell h1 h2
    exfalso
    simp only [Nat.mul_zero, Nat.add_zero] at h2
    omega
  | succ n ih =>
    intro size tell h1 h2
    have hCS : CHUNK_SIZE = 8388608 := rfl
    simp only [uploadLargeLoop, if_pos h1]
    by_cases hc : size - tell ≤ CHUNK_SIZE
    · rw [if_pos hc]
      refine ⟨?_, ?_, ?_, ?_, ?_, [], ⟨EvKind.finish, size - tell, tell, some WMode.overwrite⟩,
        rfl, rfl, by show 0 < size - tell; omega, hc⟩
      · rw [countKind_cons_of_ne EvKind.finish EvKind.append (by decide), countKind_nil]
        rw [hCS] at hc ⊢
        omega
      · rw [countKind_cons_self, countKind_nil]
      · simp [totalBytes]
      · simp [offsetsOk]
      · intro e he hk
        simp only [List.mem_singleton] at he
        subst he
        simp at hk
    · rw [if_neg hc]
      have hlt : tell + CHUNK_SIZE < size := by
        rw [hCS] at hc ⊢
        omega
      have hle : size ≤ tell + CHUNK_SIZE + CHUNK_SIZE * n := by
        rw [hCS] at h2 ⊢
        omega
      obtain ⟨ha, hf, hb, ho, hae, pre, lastEv, hL, hk1, hk2, hk3⟩ :=
        ih size (tell + CHUNK_SIZE) hlt hle
      refine ⟨?_, ?_, ?_, ?_, ?_, ⟨EvKind.append, CHUNK_SIZE, tell, none⟩ :: pre, lastEv,
        by rw [hL, List.cons_append], hk1, hk2, hk3⟩
      · rw [countKind_cons_self, ha]
        rw [hCS] at hc ⊢
        omega
      · rw [countKind_cons_of_ne EvKind.append EvKind.finish (by decide), hf]
      · simp only [totalBytes, hb]
        rw [hCS] at hc ⊢
        omega
      · simp only [offsetsOk, ho, beq_self_eq_true, Bool.true_and]
      · intro e he hk
        simp only [List.mem_cons] at he
        rcases he with he | he
        · subst he; rfl
        · exact hae e he hk

/-- C2 (counterexample): for a 160 MiB file, which is transferred in chunked mode,
    the code makes 18 files_upload_session_append_v2 calls, not
    ceil(S/C) - 1 = 19 as the claim states: the first chunk is carried by
    files_upload_session_start, so appends number ceil(S/C) - 2. -/
theorem chunked_append_count_claim_cex :
    LARGE_FILE_THRESHOLD < 160 * 1024 * 1024 ∧
    countKind EvKind.append (upload_large_file (160 * 1024 * 1024)) = 18 ∧
    (160 * 1024 * 1024 + CHUNK_SIZE - 1) / CHUNK_SIZE - 1 = 19 := by
  refine ⟨by decide, by decide, by decide⟩

/-- C2 (amended): for every file transferred in chunked mode with size S and
    chunk size C = 8 MiB, the transfer makes exactly ceil(S/C) - 2 append calls
    (the initial chunk of size C is sent by the session-start call, so
    session-start plus appends total ceil(S/C) - 1), plus exactly one
    session-finish call, and the total number of bytes consumed from the file
    across all calls equals S. -/
theorem chunked_append_count (S : Nat) (h : LARGE_FILE_THRESHOLD < S) :
    countKind EvKind.append (upload_large_file S) = (S + CHUNK_SIZE - 1) / CHUNK_SIZE - 2 ∧
    (∃ rest, upload_large_file S = ⟨EvKind.start, CHUNK_SIZE, 0, none⟩ :: rest) ∧
    countKind EvKind.finish (upload_large_file S) = 1 ∧
    totalBytes (upload_large_file S) = S := by
  have hCS : CHUNK_SIZE = 8388608 := rfl
  have hT : LARGE_FILE_THRESHOLD = 157286400 := rfl
  have hCltS : CHUNK_SIZE < S := by rw [hCS]; rw [hT] at h; omega
  have hmin : min CHUNK_SIZE S = CHUNK_SIZE := Nat.min_eq_left (Nat.le_of_lt hCltS)
  have hfuel : S ≤ CHUNK_SIZE + CHUNK_SIZE * (S / CHUNK_SIZE + 2) := by
    rw [hCS]; omega
  obtain ⟨ha, hf, hb, _, _, _⟩ :=
    uploadLargeLoop_spec (S / CHUNK_SIZE + 2) S CHUNK_SIZE hCltS hfuel
  unfold upload_large_file
  rw [hmin]
  refine ⟨?_, ⟨_, rfl⟩, ?_, ?_⟩
  · rw [countKind_cons_of_ne EvKind.start EvKind.append (by decide), ha]
    rw [hCS] at hCltS ⊢
    omega
  · rw [countKind_cons_of_ne EvKind.start EvKind.finish (by decide), hf]
  · simp only [totalBytes, hb]
    omega

/-- C2 amended claim instantiated at a concrete 200 MiB file. -/
theorem chunked_append_count_witness :
    LARGE_FILE_THRESHOLD < 200 * 1024 * 1024 ∧
    (countKind EvKind.append (upload_large_file (200 * 1024 * 1024))
        = (200 * 1024 * 1024 + CHUNK_SIZE - 1) / CHUNK_SIZE - 2 ∧
     (∃ rest, upload_large_file (200 * 1024 * 1024)
        = ⟨EvKind.start, CHUNK_SIZE, 0, none⟩ :: rest) ∧
     countKind EvKind.finish (upload_large_file (200 * 1024 * 1024)) = 1 ∧
     totalBytes (upload_large_file (200 * 1024 * 1024)) = 200 * 1024 * 1024) :=
  ⟨by decide, chunked_append_count (200 * 1024 * 1024) (by decide)⟩

/-- C4: throughout upload_large_file, the session cursor offset recorded at each
    call equals the number of bytes consumed from the file before that call's
    chunk was read (so it grows by exactly one 8 MiB chunk per append), every
    append call carries exactly CHUNK_SIZE bytes, the session commits exactly
    once (one session-finish call), and the finish call is the last call, sent
    once the remainder is at most one chunk (its chunk is positive and at most
    CHUNK_SIZE bytes). -/
theorem chunked_offset_invariant (S : Nat) (h : LARGE_FILE_THRESHOLD < S) :
    offsetsOk 0 (upload_large_file S) = true ∧
    (∀ e ∈ upload_large_file S, e.kind = EvKind.append → e.bytes = CHUNK_SIZE) ∧
    countKind EvKind.finish (upload_large_file S) = 1 ∧
    (∃ pre lastEv, upload_large_file S = pre ++ [lastEv] ∧ lastEv.kind = EvKind.finish ∧
      0 < lastEv.bytes ∧ lastEv.bytes ≤ CHUNK_SIZE) := by
  have hCS : CHUNK_SIZE = 8388608 := rfl
  have hT : LARGE_FILE_THRESHOLD = 157286400 := rfl
  have hCltS : CHUNK_SIZE < S := by rw [hCS]; rw [hT] at h; omega
  have hmin : min CHUNK_SIZE S = CHUNK_SIZE := Nat.min_eq_left (Nat.le_of_lt hCltS)
  have hfuel : S ≤ CHUNK_SIZE + CHUNK_SIZE * (S / CHUNK_SIZE + 2) := by
    rw [hCS]; omega
  obtain ⟨_, hf, _, ho, hae, pre, lastEv, hL, hk1, hk2, hk3⟩ :=
    uploadLargeLoop_spec (S / CHUNK_SIZE + 2) S CHUNK_SIZE hCltS hfuel
  unfold upload_large_file
  rw [hmin]
  refine ⟨?_, ?_, ?_, ⟨EvKind.start, CHUNK_SIZE, 0, none⟩ :: pre, lastEv,
    by rw [hL, List.cons_append], hk1, hk2, hk3⟩
  · simp only [offsetsOk, beq_self_eq_true, Bool.true_and, Nat.zero_add]
    exact ho
  · intro e he hk
    simp only [List.mem_cons] at he
    rcases he with he | he
    · subst he; simp at hk
    · exact hae e he hk
  · rw [countKind_cons_of_ne EvKind.start EvKind.finish (by decide), hf]

/-- C4 instantiated at a concrete 500 MiB file (the spec's scenario size). -/
theorem chunked_offset_invariant_witness :
    LARGE_FILE_THRESHOLD < 500 * 1024 * 1024 ∧
    (offsetsOk 0 (upload_large_file (500 * 1024 * 1024)) = true ∧
     (∀ e ∈ upload_large_file (500 * 1024 * 1024), e.kind = EvKind.append →
        e.bytes = CHUNK_SIZE) ∧
     countKind EvKind.finish (upload_large_file (500 * 1024 * 1024)) = 1 ∧
     (∃ pre lastEv, upload_large_file (500 * 1024 * 1024) = pre ++ [lastEv] ∧
        lastEv.kind = EvKind.finish ∧ 0 < lastEv.bytes ∧ lastEv.bytes ≤ CHUNK_SIZE)) :=
  ⟨by decide, chunked_offset_invariant (500 * 1024 * 1024) (by decide)⟩

/-- C8: the transfer mode is chunked exactly when the file size strictly
    exceeds LARGE_FILE_THRESHOLD (150 MiB); every file of size at most the
    threshold (including exactly 150 MiB) is uploaded by a single files_upload
    call carrying the whole file with overwrite mode. -/
theorem transfer_mode_threshold (size : Nat) :
    (LARGE_FILE_THRESHOLD < size → transferCallsFor size = upload_large_file size) ∧
    (size ≤ LARGE_FILE_THRESHOLD →
      transferCallsFor size = [⟨EvKind.whole, size, 0, some WMode.overwrite⟩]) ∧
    (transferCallsFor size = upload_large_file size ↔ LARGE_FILE_THRESHOLD < size) := by
  by_cases h : LARGE_FILE_THRESHOLD < size
  · refine ⟨fun _ => ?_, fun h2 => absurd h (by omega), ?_⟩
    · simp [transferCallsFor, h]
    · simp [transferCallsFor, h]
  · refine ⟨fun h2 => absurd h2 h, fun _ => ?_, ?_⟩
    · simp [transferCallsFor, h, upload_small_file]
    · rw [transferCallsFor, if_neg h]
      constructor
      · intro heq
        exfalso
        rw [upload_small_file, upload_large_file] at heq
        have := List.head_eq_of_cons_eq heq
        simp at this
      · intro h2
        exact absurd h2 h

/-- C8 instantiated at exactly 150 MiB, the boundary case: single-shot whole
    upload with overwrite. -/
theorem transfer_mode_threshold_witness :
    150 * 1024 * 1024 ≤ LARGE_FILE_THRESHOLD ∧
    transferCallsFor (150 * 1024 * 1024)
      = [⟨EvKind.whole, 150 * 1024 * 1024, 0, some WMode.overwrite⟩] :=
  ⟨by decide, (transfer_mode_threshold (150 * 1024 * 1024)).2.1 (by decide)⟩

theorem uploadFilesLoop_ok (env : UploadEnv) (root : String) :
    ∀ (files : List LocalFile) (i : Nat) (paths : List String)
      (calls : List (String × List Ev)),
    uploadFilesLoop env root files i = Except.ok (paths, calls) →
    paths = files.map (fun f => destPath root f.rel) ∧ calls.map Prod.fst = paths := by
  intro files
  induction files with
  | nil =>
    intro i paths calls h
    simp only [uploadFilesLoop] at h
    cases h
    simp
  | cons f rest ih =>
    intro i paths calls h
    simp only [uploadFilesLoop] at h
    by_cases ht : env.transferOk i
    · rw [if_pos ht] at h
      cases hrec : uploadFilesLoop env root rest (i + 1) with
      | ok pr =>
        cases pr with
        | mk p2 c2 =>
          rw [hrec] at h
          cases h
          obtain ⟨h1, h2⟩ := ih (i + 1) p2 c2 hrec
          subst h1
          simp [h2]
      | error e =>
        rw [hrec] at h
        cases h
    · rw [if_neg ht] at h
      cases h

/-- C5: after a successful upload_folder_to_dropbox, the manifest's
    uploaded-files list is exactly the per-file destination paths, in order:
    the fixed namespace prefix /pdf_extractions/, the folder's base name, and
    each file's relative path with forward slashes; a transfer call is made at
    exactly these destinations (calls pair each destination with its trace),
    and every local file's destination appears in the manifest. -/
theorem upload_folder_path_mapping (env : UploadEnv) (m : Manifest)
    (calls : List (String × List Ev))
    (h : upload_folder_to_dropbox env = Except.ok (m, calls)) :
    m.uploaded_files
      = env.files.map (fun f => "/pdf_extractions/" ++ env.folderName ++ "/" ++ f.rel) ∧
    calls.map Prod.fst = m.uploaded_files ∧
    (∀ f ∈ env.files,
      ("/pdf_extractions/" ++ env.folderName ++ "/" ++ f.rel) ∈ m.uploaded_files) := by
  rw [upload_folder_to_dropbox] at h
  by_cases h1 : env.hasToken
  swap
  · rw [if_pos (by simp [h1])] at h; cases h
  rw [if_neg (by simp [h1])] at h
  by_cases h2 : env.folderExists
  swap
  · rw [if_pos (by simp [h2])] at h; cases h
  rw [if_neg (by simp [h2])] at h
  by_cases h3 : env.isDir
  swap
  · rw [if_pos (by simp [h3])] at h; cases h
  rw [if_neg (by simp [h3])] at h
  by_cases h4 : env.connectOk
  swap
  · rw [if_pos (by simp [h4])] at h; cases h
  rw [if_neg (by simp [h4])] at h
  cases hloop : uploadFilesLoop env ("/pdf_extractions/" ++ env.folderName) env.files 0 with
  | error e =>
    rw [hloop] at h
    cases h
  | ok pr =>
    cases pr with
    | mk uploaded calls2 =>
      rw [hloop] at h
      obtain ⟨hp, hc⟩ :=
        uploadFilesLoop_ok env ("/pdf_extractions/" ++ env.folderName)
          env.files 0 uploaded calls2 hloop
      have hp2 : uploaded
          = env.files.map (fun f => "/pdf_extractions/" ++ env.folderName ++ "/" ++ f.rel) := hp
      cases h
      refine ⟨hp2, hc, ?_⟩
      intro f hf
      show ("/pdf_extractions/" ++ env.folderName ++ "/" ++ f.rel) ∈ uploaded
      rw [hp2]
      exact List.mem_map_of_mem (fun f => "/pdf_extractions/" ++ env.folderName ++ "/" ++ f.rel) hf

/-- C5 instantiated on a concrete two-file output folder. -/
theorem upload_folder_path_mapping_witness :
    upload_folder_to_dropbox exampleUploadEnv = Except.ok (exampleManifest, exampleCalls) ∧
    exampleManifest.uploaded_files
      = exampleUploadEnv.files.map
          (fun f => "/pdf_extractions/" ++ exampleUploadEnv.folderName ++ "/" ++ f.rel) ∧
    exampleCalls.map Prod.fst = exampleManifest.uploaded_files ∧
    ("/pdf_extractions/" ++ "o" ++ "/" ++ "figures/f1.png") ∈ exampleManifest.uploaded_files :=
  ⟨rfl,
   (upload_folder_path_mapping exampleUploadEnv exampleManifest exampleCalls rfl).1,
   (upload_folder_path_mapping exampleUploadEnv exampleManifest exampleCalls rfl).2.1,
   (upload_folder_path_mapping exampleUploadEnv exampleManifest exampleCalls rfl).2.2
     ⟨"figures/f1.png", 7⟩ (by simp [exampleUploadEnv])⟩

/-- C1: when extract_pdf returns an output folder and upload_folder_to_dropbox
    raises, the response has status success (never error), carries the output
    folder path, the fixed partial-success message, and the upload failure text
    in the separate dropbox_error field. -/
theorem upload_file_partial_success (req : UploadRequest) (uid folder derr : String)
    (h1 : req.hasFile = true) (h2 : req.filename ≠ "")
    (h3 : allowed_file req.filename = true) (h4 : validate_pdf req.content = true) :
    (upload_file req uid (Except.ok folder) (Except.error derr)).1.status = "success" ∧
    (upload_file req uid (Except.ok folder) (Except.error derr)).1.output_folder
      = some folder ∧
    (upload_file req uid (Except.ok folder) (Except.error derr)).1.dropbox_error
      = some derr ∧
    (upload_file req uid (Except.ok folder) (Except.error derr)).1.message
      = "PDF processed successfully, but Dropbox upload failed" ∧
    (upload_file req uid (Except.ok folder) (Except.error derr)).1.status ≠ "error" := by
  have hd : decide (req.filename ≠ "") = true := decide_eq_true h2
  have hout : upload_file req uid (Except.ok folder) (Except.error derr)
      = ({ status := "success",
           message := "PDF processed successfully, but Dropbox upload failed",
           output_folder := some folder, dropbox_error := some derr },
         ⟨[("uploads/" ++ uid ++ "." ++ lowerStr (extAfterLastDot req.filename),
            req.content)], []⟩) := by
    simp [upload_file, h1, h2, h3, h4, hd]
  rw [hout]
  exact ⟨rfl, rfl, rfl, rfl, by show ("success" : String) ≠ "error"; decide⟩

/-- C1 instantiated on a concrete request whose upload step raises. -/
theorem upload_file_partial_success_witness :
    (upload_file ⟨true, "a.pdf", [37, 80, 68, 70]⟩ "u1" (Except.ok "generated/u1")
       (Except.error "boom")).1.status = "success" ∧
    (upload_file ⟨true, "a.pdf", [37, 80, 68, 70]⟩ "u1" (Except.ok "generated/u1")
       (Except.error "boom")).1.output_folder = some "generated/u1" ∧
    (upload_file ⟨true, "a.pdf", [37, 80, 68, 70]⟩ "u1" (Except.ok "generated/u1")
       (Except.error "boom")).1.dropbox_error = some "boom" ∧
    (upload_file ⟨true, "a.pdf", [37, 80, 68, 70]⟩ "u1" (Except.ok "generated/u1")
       (Except.error "boom")).1.message
      = "PDF processed successfully, but Dropbox upload failed" ∧
    (upload_file ⟨true, "a.pdf", [37, 80, 68, 70]⟩ "u1" (Except.ok "generated/u1")
       (Except.error "boom")).1.status ≠ "error" :=
  upload_file_partial_success ⟨true, "a.pdf", [37, 80, 68, 70]⟩ "u1" "generated/u1" "boom"
    rfl (by decide) (by decide) (by decide)

/-- C10: a request that passes the extension check but whose saved bytes do not
    begin with %PDF gets the Invalid PDF file format error response, after the
    stream was persisted under uploads/ as uuid.pdf; the route deletes nothing,
    so the intake file stays on disk. -/
theorem invalid_magic_leaves_intake_file (req : UploadRequest) (uid : String)
    (eo : Except String String) (dbo : Except String Manifest)
    (h1 : req.hasFile = true) (h2 : req.filename ≠ "")
    (h3 : allowed_file req.filename = true) (h4 : validate_pdf req.content = false) :
    (upload_file req uid eo dbo).1.status = "error" ∧
    (upload_file req uid eo dbo).1.message = "Invalid PDF file format" ∧
    ("uploads/" ++ uid ++ "." ++ "pdf", req.content) ∈ (upload_file req uid eo dbo).2.saved ∧
    (upload_file req uid eo dbo).2.deleted = [] := by
  have hd : decide (req.filename ≠ "") = true := decide_eq_true h2
  have hext : lowerStr (extAfterLastDot req.filename) = "pdf" := by
    rw [allowed_file, Bool.and_eq_true] at h3
    exact eq_of_beq h3.2
  have hout : upload_file req uid eo dbo
      = ({ status := "error", message := "Invalid PDF file format" },
         ⟨[("uploads/" ++ uid ++ "." ++ "pdf", req.content)], []⟩) := by
    simp [upload_file, h1, h2, h3, h4, hd, hext]
  rw [hout]
  exact ⟨rfl, rfl, by simp, rfl⟩

/-- C10 instantiated on a concrete .pdf-named request with wrong magic bytes. -/
theorem invalid_magic_leaves_intake_file_witness :
    (upload_file ⟨true, "b.pdf", [1, 2, 3, 4]⟩ "u2" (Except.error "x")
       (Except.error "y")).1.status = "error" ∧
    (upload_file ⟨true, "b.pdf", [1, 2, 3, 4]⟩ "u2" (Except.error "x")
       (Except.error "y")).1.message = "Invalid PDF file format" ∧
    ("uploads/" ++ "u2" ++ "." ++ "pdf", [1, 2, 3, 4])
      ∈ (upload_file ⟨true, "b.pdf", [1, 2, 3, 4]⟩ "u2" (Except.error "x")
           (Except.error "y")).2.saved ∧
    (upload_file ⟨true, "b.pdf", [1, 2, 3, 4]⟩ "u2" (Except.error "x")
       (Except.error "y")).2.deleted = [] :=
  invalid_magic_leaves_intake_file ⟨true, "b.pdf", [1, 2, 3, 4]⟩ "u2"
    (Except.error "x") (Except.error "y") rfl (by decide) (by decide) (by decide)

/-- C7: when credentials and input are present and extract_pdf raises (a
    failure of the remote job or of archive processing), the whole output
    directory is removed, nothing written inside it survives, and the failure
    is what the caller receives. -/
theorem extract_pdf_ok_entries (entries : List ZipEntry) (uid : String) :
    extract_pdf ⟨true, true, Except.ok entries⟩ uid
      = match processEntries ("generated/" ++ uid) entries with
        | Except.ok ws => (Except.ok ("generated/" ++ uid), ⟨true, true, true, ws⟩)
        | Except.error e => (Except.error e, ⟨false, true, false, []⟩) := rfl

theorem extract_pdf_cleanup_on_failure (env : PdfEnv) (uid : String) (e : String)
    (h1 : env.hasCredentials = true) (h2 : env.inputExists = true)
    (h3 : (extract_pdf env uid).1 = Except.error e) :
    (extract_pdf env uid).2.outputDirExists = false ∧
    (extract_pdf env uid).2.written = [] := by
  obtain ⟨hc, hi, rem⟩ := env
  have hc1 : hc = true := h1
  have hi1 : hi = true := h2
  subst hc1
  subst hi1
  cases rem with
  | error e2 => exact ⟨rfl, rfl⟩
  | ok entries =>
    rw [extract_pdf_ok_entries] at h3 ⊢
    cases hp : processEntries ("generated/" ++ uid) entries with
    | ok ws =>
      rw [hp] at h3
      simp at h3
    | error e2 => exact ⟨rfl, rfl⟩

/-- C7 instantiated on a run whose remote extraction job raises. -/
theorem extract_pdf_cleanup_on_failure_witness :
    (extract_pdf ⟨true, true, Except.error "job failed"⟩ "u3").2.outputDirExists = false ∧
    (extract_pdf ⟨true, true, Except.error "job failed"⟩ "u3").2.written = [] :=
  extract_pdf_cleanup_on_failure ⟨true, true, Except.error "job failed"⟩ "u3"
    "job failed" rfl rfl rfl

/-- C3 (counterexample): a run in which the scratch zip is created and archive
    processing then raises (structuredData.json entry whose bytes are not valid
    JSON) ends with the scratch zip still on disk: it is not deleted on this
    failure path, contradicting the claim that deletion is unconditional. -/
theorem scratch_zip_left_on_failure_cex :
    (extract_pdf ⟨true, true, Except.ok [⟨"structuredData.json", none, 9⟩]⟩ "u1").2.tempZipCreated
      = true ∧
    (extract_pdf ⟨true, true, Except.ok [⟨"structuredData.json", none, 9⟩]⟩ "u1").2.tempZipDeleted
      = false ∧
    (extract_pdf ⟨true, true, Except.ok [⟨"structuredData.json", none, 9⟩]⟩ "u1").1
      = Except.error "Expecting value: line 1 column 1 (char 0)" :=
  ⟨rfl, rfl, rfl⟩

/-- C3 (amended): extract_pdf deletes the scratch archive exactly on the
    success path; on every failure path the scratch archive is not deleted (in
    particular, a failure during archive processing leaves it on disk). -/
theorem scratch_zip_deleted_iff_success (env : PdfEnv) (uid : String) :
    (extract_pdf env uid).2.tempZipDeleted = (extract_pdf env uid).1.isOk := by
  obtain ⟨hc, hi, rem⟩ := env
  cases hc
  · rfl
  cases hi
  · rfl
  cases rem with
  | error e => rfl
  | ok entries =>
    rw [extract_pdf_ok_entries]
    cases hp : processEntries ("generated/" ++ uid) entries with
    | ok ws => rfl
    | error e => rfl

theorem mem_dedupAux : ∀ (l seen : List String) (a : String),
    a ∈ dedupAux seen l ↔ a ∈ l ∧ a ∉ seen := by
  intro l
  induction l with
  | nil =>
    intro seen a
    simp [dedupAux]
  | cons x xs ih =>
    intro seen a
    by_cases hx : x ∈ seen
    · rw [show dedupAux seen (x :: xs) = dedupAux seen xs from by rw [dedupAux, if_pos hx]]
      rw [ih]
      constructor
      · rintro ⟨h1, h2⟩
        exact ⟨List.mem_cons_of_mem _ h1, h2⟩
      · rintro ⟨h1, h2⟩
        rcases List.mem_cons.mp h1 with h | h
        · subst h
          exact absurd hx h2
        · exact ⟨h, h2⟩
    · rw [show dedupAux seen (x :: xs) = x :: dedupAux (x :: seen) xs from by
        rw [dedupAux, if_neg hx]]
      by_cases hax : a = x
      · subst hax
        simp [hx]
      · simp only [List.mem_cons, ih, hax, false_or]

theorem nodup_dedupAux : ∀ (l seen : List String), (dedupAux seen l).Nodup := by
  intro l
  induction l with
  | nil =>
    intro seen
    simp [dedupAux]
  | cons x xs ih =>
    intro seen
    by_cases hx : x ∈ seen
    · rw [show dedupAux seen (x :: xs) = dedupAux seen xs from by rw [dedupAux, if_pos hx]]
      exact ih seen
    · rw [show dedupAux seen (x :: xs) = x :: dedupAux (x :: seen) xs from by
        rw [dedupAux, if_neg hx]]
      rw [List.nodup_cons]
      refine ⟨fun hmem => ?_, ih (x :: seen)⟩
      exact ((mem_dedupAux xs (x :: seen) x).mp hmem).2 (List.mem_cons_self x seen)

theorem count_dedupAux (l : List String) (a : String) :
    (dedupFromKeys l).count a = if a ∈ l then 1 else 0 := by
  by_cases h : a ∈ l
  · rw [if_pos h]
    have hmem : a ∈ dedupFromKeys l := (mem_dedupAux l [] a).mpr ⟨h, by simp⟩
    exact List.count_eq_one_of_mem (nodup_dedupAux l []) hmem
  · rw [if_neg h]
    rw [List.count_eq_zero]
    intro hmem
    exact h ((mem_dedupAux l [] a).mp hmem).1

theorem pairwise_dedupAux : ∀ (l seen : List String),
    (dedupAux seen l).Pairwise (fun a b => l.indexOf a < l.indexOf b) := by
  intro l
  induction l with
  | nil =>
    intro seen
    simp [dedupAux]
  | cons x xs ih =>
    intro seen
    by_cases hx : x ∈ seen
    · rw [show dedupAux seen (x :: xs) = dedupAux seen xs from by rw [dedupAux, if_pos hx]]
      refine List.Pairwise.imp_of_mem ?_ (ih seen)
      intro a b ha hb hlt
      have ha2 := (mem_dedupAux xs seen a).mp ha
      have hb2 := (mem_dedupAux xs seen b).mp hb
      have hax : x ≠ a := fun h => ha2.2 (h ▸ hx)
      have hbx : x ≠ b := fun h => hb2.2 (h ▸ hx)
      rw [List.indexOf_cons_ne _ hax, List.indexOf_cons_ne _ hbx]
      exact Nat.succ_lt_succ hlt
    · rw [show dedupAux seen (x :: xs) = x :: dedupAux (x :: seen) xs from by
        rw [dedupAux, if_neg hx]]
      refine List.Pairwise.cons ?_ ?_
      · intro b hb
        have hb2 := (mem_dedupAux xs (x :: seen) b).mp hb
        have hbx : x ≠ b := fun h => hb2.2 (h ▸ List.mem_cons_self x seen)
        rw [List.indexOf_cons_self, List.indexOf_cons_ne _ hbx]
        exact Nat.succ_pos _
      · refine List.Pairwise.imp_of_mem ?_ (ih (x :: seen))
        intro a b ha hb hlt
        have ha2 := (mem_dedupAux xs (x :: seen) a).mp ha
        have hb2 := (mem_dedupAux xs (x :: seen) b).mp hb
        have hax : x ≠ a := fun h => ha2.2 (h ▸ List.mem_cons_self x seen)
        have hbx : x ≠ b := fun h => hb2.2 (h ▸ List.mem_cons_self x seen)
        rw [List.indexOf_cons_ne _ hax, List.indexOf_cons_ne _ hbx]
        exact Nat.succ_lt_succ hlt

/-- C6: for every structured-data tree, the transcript written to text.txt is
    the newline-join (one line per entry) of the de-duplicated collected
    strings: it contains each string collected under the recognized keys
    exactly once (count 1 for collected strings, 0 otherwise, so repeats of
    identical strings are collapsed), has no duplicates, contains exactly the
    collected strings, and lists them in first-seen order of the depth-first
    walk (indices of first occurrences are strictly increasing). -/
theorem transcript_dedup_first_seen (j : JNode) :
    transcriptText j = String.intercalate "\n" (dedupFromKeys (extract_text j)) ∧
    (dedupFromKeys (extract_text j)).Nodup ∧
    (∀ s, s ∈ dedupFromKeys (extract_text j) ↔ s ∈ extract_text j) ∧
    (∀ s, (dedupFromKeys (extract_text j)).count s
        = if s ∈ extract_text j then 1 else 0) ∧
    (dedupFromKeys (extract_text j)).Pairwise
      (fun a b => (extract_text j).indexOf a < (extract_text j).indexOf b) := by
  refine ⟨rfl, nodup_dedupAux _ [], ?_, ?_, pairwise_dedupAux _ []⟩
  · intro s
    rw [dedupFromKeys, mem_dedupAux]
    simp
  · intro s
    exact count_dedupAux (extract_text j) s

theorem replaceAux_nil (pat rep : List Char) (f : Nat) : replaceAux pat rep f [] = [] := by
  cases f <;> rfl

theorem replace_absent (pat rep : List Char) :
    ∀ (fuel : Nat) (s : List Char), listHasSub pat s = false →
    replaceAux pat rep fuel s = s := by
  intro fuel
  induction fuel with
  | zero =>
    intro s h
    cases s <;> rfl
  | succ n ih =>
    intro s h
    cases s with
    | nil => rfl
    | cons c rest =>
      rw [show listHasSub pat (c :: rest)
          = (pat.isPrefixOf (c :: rest) || listHasSub pat rest) from rfl,
        Bool.or_eq_false_iff] at h
      rw [show replaceAux pat rep (n + 1) (c :: rest)
          = if pat.isPrefixOf (c :: rest) then
              rep ++ replaceAux pat rep n ((c :: rest).drop pat.length)
            else c :: replaceAux pat rep n rest from rfl]
      rw [if_neg (by simp [h.1])]
      rw [ih rest h.2]

theorem len_replaceAux (pat rep : List Char) (hlen : pat.length = rep.length) :
    ∀ (fuel : Nat) (s : List Char), (replaceAux pat rep fuel s).length = s.length := by
  intro fuel
  induction fuel with
  | zero =>
    intro s
    cases s <;> rfl
  | succ n ih =>
    intro s
    cases s with
    | nil => rfl
    | cons c rest =>
      rw [show replaceAux pat rep (n + 1) (c :: rest)
          = if pat.isPrefixOf (c :: rest) then
              rep ++ replaceAux pat rep n ((c :: rest).drop pat.length)
            else c :: replaceAux pat rep n rest from rfl]
      by_cases hp : pat.isPrefixOf (c :: rest)
      · rw [if_pos hp, List.length_append, ih, List.length_drop]
        have hple : pat.length ≤ (c :: rest).length :=
          (List.isPrefixOf_iff_prefix.mp hp).length_le
        omega
      · rw [if_neg hp]
        simp [ih]

theorem hasSub_of_drop (pat : List Char) :
    ∀ (s : List Char) (n : Nat),
    listHasSub pat (s.drop n) = true → listHasSub pat s = true := by
  intro s
  induction s with
  | nil =>
    intro n h
    simpa using h
  | cons c rest ih =>
    intro n h
    cases n with
    | zero => simpa using h
    | succ m =>
      rw [List.drop_succ_cons] at h
      rw [show listHasSub pat (c :: rest)
          = (pat.isPrefixOf (c :: rest) || listHasSub pat rest) from rfl,
        Bool.or_eq_true]
      exact Or.inr (ih m h)

theorem hasSub_of_isPrefixOf {pat s : List Char} (hne : pat ≠ [])
    (h : pat.isPrefixOf s = true) : listHasSub pat s = true := by
  cases s with
  | nil =>
    cases pat with
    | nil => exact absurd rfl hne
    | cons p ps => simp [List.isPrefixOf] at h
  | cons c rest =>
    rw [show listHasSub pat (c :: rest)
        = (pat.isPrefixOf (c :: rest) || listHasSub pat rest) from rfl]
    rw [h, Bool.true_or]

theorem replace_makes (pat rep : List Char) (hpat : pat ≠ []) (hrep : rep ≠ []) :
    ∀ (fuel : Nat) (s : List Char), s.length ≤ fuel → listHasSub pat s = true →
    listHasSub rep (replaceAux pat rep fuel s) = true := by
  intro fuel
  induction fuel with
  | zero =>
    intro s hle h
    have hs : s = [] := List.eq_nil_of_length_eq_zero (Nat.le_zero.mp hle)
    subst hs
    rw [show listHasSub pat ([] : List Char) = pat.isEmpty from rfl] at h
    simp [List.isEmpty_iff] at h
    exact absurd h hpat
  | succ n ih =>
    intro s hle h
    cases s with
    | nil =>
      rw [show listHasSub pat ([] : List Char) = pat.isEmpty from rfl] at h
      simp [List.isEmpty_iff] at h
      exact absurd h hpat
    | cons c rest =>
      rw [show replaceAux pat rep (n + 1) (c :: rest)
          = if pat.isPrefixOf (c :: rest) then
              rep ++ replaceAux pat rep n ((c :: rest).drop pat.length)
            else c :: replaceAux pat rep n rest from rfl]
      by_cases hp : pat.isPrefixOf (c :: rest)
      · rw [if_pos hp]
        exact hasSub_of_isPrefixOf hrep
          (List.isPrefixOf_iff_prefix.mpr (List.prefix_append _ _))
      · rw [if_neg hp]
        rw [show listHasSub pat (c :: rest)
            = (pat.isPrefixOf (c :: rest) || listHasSub pat rest) from rfl,
          Bool.or_eq_true] at h
        rcases h with h | h
        · exact absurd h hp
        · have hrest := ih rest
            (by simp only [List.length_cons] at hle; omega) h
          rw [show listHasSub rep (c :: replaceAux pat rep n rest)
              = (rep.isPrefixOf (c :: replaceAux pat rep n rest)
                 || listHasSub rep (replaceAux pat rep n rest)) from rfl,
            Bool.or_eq_true]
          exact Or.inr hrest

theorem key1 : ∀ (f : Nat) (rest t : List Char),
    replaceAux dl0 dl1 f rest = '1' :: t → ∃ t2, rest = '1' :: t2 := by
  intro f rest t h
  cases rest with
  | nil =>
    rw [replaceAux_nil] at h
    exact List.noConfusion h
  | cons c r =>
    cases f with
    | zero =>
      rw [show replaceAux dl0 dl1 0 (c :: r) = c :: r from rfl] at h
      injection h with h1 h2
      exact ⟨r, by rw [h1]⟩
    | succ n =>
      rw [show replaceAux dl0 dl1 (n + 1) (c :: r)
          = if dl0.isPrefixOf (c :: r) then
              dl1 ++ replaceAux dl0 dl1 n ((c :: r).drop dl0.length)
            else c :: replaceAux dl0 dl1 n r from rfl] at h
      by_cases hp : dl0.isPrefixOf (c :: r)
      · rw [if_pos hp] at h
        rw [show dl1 ++ replaceAux dl0 dl1 n ((c :: r).drop dl0.length)
            = '?' :: ('d' :: 'l' :: '=' :: '1'
                :: replaceAux dl0 dl1 n ((c :: r).drop dl0.length)) from rfl] at h
        injection h with h1 h2
        exact absurd h1 (by decide)
      · rw [if_neg hp] at h
        injection h with h1 h2
        exact ⟨r, by rw [h1]⟩

theorem key2 : ∀ (f : Nat) (rest t : List Char),
    replaceAux dl0 dl1 f rest = '=' :: '1' :: t → ∃ t2, rest = '=' :: '1' :: t2 := by
  intro f rest t h
  cases rest with
  | nil =>
    rw [replaceAux_nil] at h
    exact List.noConfusion h
  | cons c r =>
    cases f with
    | zero =>
      rw [show replaceAux dl0 dl1 0 (c :: r) = c :: r from rfl] at h
      injection h with h1 h2
      exact ⟨t, by rw [h1, h2]⟩
    | succ n =>
      rw [show replaceAux dl0 dl1 (n + 1) (c :: r)
          = if dl0.isPrefixOf (c :: r) then
              dl1 ++ replaceAux dl0 dl1 n ((c :: r).drop dl0.length)
            else c :: replaceAux dl0 dl1 n r from rfl] at h
      by_cases hp : dl0.isPrefixOf (c :: r)
      · rw [if_pos hp] at h
        rw [show dl1 ++ replaceAux dl0 dl1 n ((c :: r).drop dl0.length)
            = '?' :: ('d' :: 'l' :: '=' :: '1'
                :: replaceAux dl0 dl1 n ((c :: r).drop dl0.length)) from rfl] at h
        injection h with h1 h2
        exact absurd h1 (by decide)
      · rw [if_neg hp] at h
        injection h with h1 h2
        obtain ⟨t2, ht2⟩ := key1 n r t h2
        exact ⟨t2, by rw [h1, ht2]⟩

theorem key3 : ∀ (f : Nat) (rest t : List Char),
    replaceAux dl0 dl1 f rest = 'l' :: '=' :: '1' :: t →
    ∃ t2, rest = 'l' :: '=' :: '1' :: t2 := by
  intro f rest t h
  cases rest with
  | nil =>
    rw [replaceAux_nil] at h
    exact List.noConfusion h
  | cons c r =>
    cases f with
    | zero =>
      rw [show replaceAux dl0 dl1 0 (c :: r) = c :: r from rfl] at h
      injection h with h1 h2
      exact ⟨t, by rw [h1, h2]⟩
    | succ n =>
      rw [show replaceAux dl0 dl1 (n + 1) (c :: r)
          = if dl0.isPrefixOf (c :: r) then
              dl1 ++ replaceAux dl0 dl1 n ((c :: r).drop dl0.length)
            else c :: replaceAux dl0 dl1 n r from rfl] at h
      by_cases hp : dl0.isPrefixOf (c :: r)
      · rw [if_pos hp] at h
        rw [show dl1 ++ replaceAux dl0 dl1 n ((c :: r).drop dl0.length)
            = '?' :: ('d' :: 'l' :: '=' :: '1'
                :: replaceAux dl0 dl1 n ((c :: r).drop dl0.length)) from rfl] at h
        injection h with h1 h2
        exact absurd h1 (by decide)
      · rw [if_neg hp] at h
        injection h with h1 h2
        obtain ⟨t2, ht2⟩ := key2 n r t h2
        exact ⟨t2, by rw [h1, ht2]⟩

theorem key4 : ∀ (f : Nat) (rest t : List Char),
    replaceAux dl0 dl1 f rest = 'd' :: 'l' :: '=' :: '1' :: t →
    ∃ t2, rest = 'd' :: 'l' :: '=' :: '1' :: t2 := by
  intro f rest t h
  cases rest with
  | nil =>
    rw [replaceAux_nil] at h
    exact List.noConfusion h
  | cons c r =>
    cases f with
    | zero =>
      rw [show replaceAux dl0 dl1 0 (c :: r) = c :: r from rfl] at h
      injection h with h1 h2
      exact ⟨t, by rw [h1, h2]⟩
    | succ n =>
      rw [show replaceAux dl0 dl1 (n + 1) (c :: r)
          = if dl0.isPrefixOf (c :: r) then
              dl1 ++ replaceAux dl0 dl1 n ((c :: r).drop dl0.length)
            else c :: replaceAux dl0 dl1 n r from rfl] at h
      by_cases hp : dl0.isPrefixOf (c :: r)
      · rw [if_pos hp] at h
        rw [show dl1 ++ replaceAux dl0 dl1 n ((c :: r).drop dl0.length)
            = '?' :: ('d' :: 'l' :: '=' :: '1'
                :: replaceAux dl0 dl1 n ((c :: r).drop dl0.length)) from rfl] at h
        injection h with h1 h2
        exact absurd h1 (by decide)
      · rw [if_neg hp] at h
        injection h with h1 h2
        obtain ⟨t2, ht2⟩ := key3 n r t h2
        exact ⟨t2, by rw [h1, ht2]⟩

theorem keyMain (f : Nat) (c : Char) (rest : List Char)
    (h : listHasSub dl1 (c :: rest) = false) :
    dl1.isPrefixOf (c :: replaceAux dl0 dl1 f rest) = false := by
  by_contra hq
  rw [Bool.not_eq_false] at hq
  obtain ⟨t, ht⟩ := List.isPrefixOf_iff_prefix.mp hq
  rw [show dl1 ++ t = '?' :: 'd' :: 'l' :: '=' :: '1' :: t from rfl] at ht
  injection ht with h1 h2
  obtain ⟨t2, ht2⟩ := key4 f rest t h2.symm
  subst ht2
  rw [← h1] at h
  have htrue : listHasSub dl1 ('?' :: 'd' :: 'l' :: '=' :: '1' :: t2) = true := by
    rw [show listHasSub dl1 ('?' :: 'd' :: 'l' :: '=' :: '1' :: t2)
        = (dl1.isPrefixOf ('?' :: 'd' :: 'l' :: '=' :: '1' :: t2)
           || listHasSub dl1 ('d' :: 'l' :: '=' :: '1' :: t2)) from rfl]
    rw [show dl1.isPrefixOf ('?' :: 'd' :: 'l' :: '=' :: '1' :: t2) = true from by
      simp [dl1, List.isPrefixOf]]
    rfl
  rw [htrue] at h
  exact Bool.noConfusion h

theorem rt_replace : ∀ (f1 : Nat) (s : List Char) (f2 : Nat),
    s.length ≤ f1 → s.length ≤ f2 → listHasSub dl1 s = false →
    replaceAux dl1 dl0 f2 (replaceAux dl0 dl1 f1 s) = s := by
  intro f1
  induction f1 with
  | zero =>
    intro s f2 h1 h2 h3
    have hs : s = [] := List.eq_nil_of_length_eq_zero (Nat.le_zero.mp h1)
    subst hs
    rw [replaceAux_nil, replaceAux_nil]
  | succ n ih =>
    intro s f2 h1 h2 h3
    cases s with
    | nil => rw [replaceAux_nil, replaceAux_nil]
    | cons c rest =>
      rw [show replaceAux dl0 dl1 (n + 1) (c :: rest)
          = if dl0.isPrefixOf (c :: rest) then
              dl1 ++ replaceAux dl0 dl1 n ((c :: rest).drop dl0.length)
            else c :: replaceAux dl0 dl1 n rest from rfl]
      by_cases hp : dl0.isPrefixOf (c :: rest)
      · rw [if_pos hp]
        obtain ⟨tl, htl⟩ := List.isPrefixOf_iff_prefix.mp hp
        have hdrop : (c :: rest).drop dl0.length = tl := by
          rw [← htl]
          exact List.drop_left dl0 tl
        rw [hdrop]
        have hlen5 : (c :: rest).length = 5 + tl.length := by
          rw [← htl, List.length_append]
          rfl
        cases f2 with
        | zero =>
          exfalso
          simp at h2
        | succ m =>
          rw [show dl1 ++ replaceAux dl0 dl1 n tl
              = '?' :: ('d' :: 'l' :: '=' :: '1' :: replaceAux dl0 dl1 n tl) from rfl]
          rw [show replaceAux dl1 dl0 (m + 1)
                ('?' :: ('d' :: 'l' :: '=' :: '1' :: replaceAux dl0 dl1 n tl))
              = if dl1.isPrefixOf ('?' :: ('d' :: 'l' :: '=' :: '1'
                    :: replaceAux dl0 dl1 n tl)) then
                  dl0 ++ replaceAux dl1 dl0 m
                    (('?' :: ('d' :: 'l' :: '=' :: '1'
                        :: replaceAux dl0 dl1 n tl)).drop dl1.length)
                else '?' :: replaceAux dl1 dl0 m
                    ('d' :: 'l' :: '=' :: '1' :: replaceAux dl0 dl1 n tl) from rfl]
          rw [if_pos (show dl1.isPrefixOf ('?' :: ('d' :: 'l' :: '=' :: '1'
              :: replaceAux dl0 dl1 n tl)) = true from by simp [dl1, List.isPrefixOf])]
          rw [show ('?' :: ('d' :: 'l' :: '=' :: '1'
              :: replaceAux dl0 dl1 n tl)).drop dl1.length
              = replaceAux dl0 dl1 n tl from rfl]
          have hsub : listHasSub dl1 tl = false := by
            cases hb : listHasSub dl1 tl
            · rfl
            · exfalso
              have hcr := hasSub_of_drop dl1 (c :: rest) dl0.length
                (by rw [hdrop]; exact hb)
              rw [hcr] at h3
              exact Bool.noConfusion h3
          rw [ih tl m (by omega) (by omega) hsub]
          exact htl
      · rw [if_neg hp]
        cases f2 with
        | zero =>
          exfalso
          simp at h2
        | succ m =>
          rw [show replaceAux dl1 dl0 (m + 1) (c :: replaceAux dl0 dl1 n rest)
              = if dl1.isPrefixOf (c :: replaceAux dl0 dl1 n rest) then
                  dl0 ++ replaceAux dl1 dl0 m
                    ((c :: replaceAux dl0 dl1 n rest).drop dl1.length)
                else c :: replaceAux dl1 dl0 m (replaceAux dl0 dl1 n rest) from rfl]
          have hk := keyMain n c rest h3
          rw [if_neg (by simp [hk])]
          have h3r : listHasSub dl1 rest = false := by
            rw [show listHasSub dl1 (c :: rest)
                = (dl1.isPrefixOf (c :: rest) || listHasSub dl1 rest) from rfl,
              Bool.or_eq_false_iff] at h3
            exact h3.2
          rw [ih rest m (by simp only [List.length_cons] at h1; omega)
            (by simp only [List.length_cons] at h2; omega) h3r]

/-- C9 (counterexample): a shared link that does not contain "dropbox.com"
    (Dropbox also issues db.tt short links) is passed through unchanged even
    when it carries a ?dl=1 download flag, so the view link is not the
    normalized viewing variant the claim demands. -/
theorem view_link_rewrite_cex :
    strContains "https://db.tt/abc?dl=1" "?dl=1" = true ∧
    pyOrOpt (deriveViewLink (some "https://db.tt/abc?dl=1"))
        (some "https://db.tt/abc?dl=1")
      = some "https://db.tt/abc?dl=1" ∧
    pyReplace "https://db.tt/abc?dl=1" "?dl=1" "?dl=0" = "https://db.tt/abc?dl=0" ∧
    ("https://db.tt/abc?dl=1" : String) ≠ "https://db.tt/abc?dl=0" := by
  refine ⟨by decide, by decide, by decide, by decide⟩

/-- C9 (amended): for every non-empty shared link containing "dropbox.com",
    the derived view link normalizes the download flag: a link containing
    "?dl=1" (and no "?dl=0") becomes the link with "?dl=1" rewritten to
    "?dl=0"; a link containing no "?dl=1" (whether it carries "?dl=0" or no
    flag at all) is returned unchanged (the code's forth-and-back rewrite of
    "?dl=0" cancels).  A link not containing "dropbox.com" yields no derived
    view link, and the shared link is used unchanged.  The normalization is a
    pure string rewrite. -/
theorem view_link_rewrite (l : String) (h0 : l ≠ "") :
    (strContains l "dropbox.com" = false →
      pyOrOpt (deriveViewLink (some l)) (some l) = some l) ∧
    (strContains l "dropbox.com" = true → strContains l "?dl=1" = true →
      strContains l "?dl=0" = false →
      deriveViewLink (some l) = some (pyReplace l "?dl=1" "?dl=0")) ∧
    (strContains l "dropbox.com" = true → strContains l "?dl=1" = false →
      deriveViewLink (some l) = some l) := by
  refine ⟨?_, ?_, ?_⟩
  · intro hd
    simp only [deriveViewLink]
    rw [if_neg h0, if_neg (by simp [hd])]
    rfl
  · intro hd h1 hz0
    simp only [deriveViewLink]
    rw [if_neg h0, if_pos hd, if_neg (by simp [hz0]), if_pos h1]
  · intro hd h1
    simp only [deriveViewLink]
    rw [if_neg h0, if_pos hd]
    by_cases hz : strContains l "?dl=0"
    · rw [if_pos hz]
      obtain ⟨d⟩ := l
      have hz2 : listHasSub dl0 d = true := hz
      have h12 : listHasSub dl1 d = false := h1
      have hm : strContains (pyReplace ⟨d⟩ "?dl=0" "?dl=1") "?dl=1" = true :=
        replace_makes dl0 dl1 (by decide) (by decide) d.length d (Nat.le_refl _) hz2
      rw [if_pos hm]
      have hlenM : (replaceAux dl0 dl1 d.length d).length = d.length :=
        len_replaceAux dl0 dl1 rfl d.length d
      have hrt : replaceAux dl1 dl0 (replaceAux dl0 dl1 d.length d).length
          (replaceAux dl0 dl1 d.length d) = d :=
        rt_replace d.length d (replaceAux dl0 dl1 d.length d).length
          (Nat.le_refl _) (Nat.le_of_eq hlenM.symm) h12
      exact congrArg (fun x => some (String.mk x)) hrt
    · rw [if_neg hz, if_neg (by simp [h1])]

/-- C9 amended claim instantiated at a dropbox.com link already carrying the
    viewing flag ?dl=0: it is returned unchanged. -/
theorem view_link_rewrite_witness :
    ("https://www.dropbox.com/s/x?dl=0" : String) ≠ "" ∧
    strContains "https://www.dropbox.com/s/x?dl=0" "dropbox.com" = true ∧
    strContains "https://www.dropbox.com/s/x?dl=0" "?dl=1" = false ∧
    deriveViewLink (some "https://www.dropbox.com/s/x?dl=0")
      = some "https://www.dropbox.com/s/x?dl=0" :=
  ⟨by decide, by decide, by decide,
   (view_link_rewrite "https://www.dropbox.com/s/x?dl=0" (by decide)).2.2
     (by decide) (by decide)⟩

end PdfExtractor
